import Mathlib

/-!
Verification of the internship-agent job pipeline.

Shallow embedding of the Python sources:
  src/search_agent.py  (SearchAgent: search_jobs, _parse_job, _is_valid_job,
                        _filter_jobs, _deduplicate_jobs, _get_backoff_delay)
  src/parser.py        (WebParser.extract_emails_from_url)
  src/utils.py         (filter_emails)
  src/main.py          (check_rate_limit)

Python strings are modelled as Lean Strings; the Python primitives used by
the sources (str.lower, the in operator, str.strip, str.startswith,
str.replace, str.split) are embedded below on the underlying character
lists.  All strings handled by the pipeline are ASCII, so the ASCII-only
Char.toLower matches Python's str.lower on the inputs of interest.
-/

namespace InternAgent

/-- Embedding of Python str.lower (ASCII). -/
def pyLower (s : String) : String := String.mk (s.data.map Char.toLower)

/-- needle occurs as a contiguous sublist of hay. -/
def pyInAux (needle : List Char) : List Char → Bool
  | [] => needle.isEmpty
  | c :: cs => needle.isPrefixOf (c :: cs) || pyInAux needle cs

/-- Embedding of the Python substring test needle in hay. -/
def pyIn (needle hay : String) : Bool := pyInAux needle.data hay.data

/-- Python whitespace characters recognised by str.strip (ASCII subset). -/
def isPySpace (c : Char) : Bool :=
  c == ' ' || c == '\t' || c == '\n' || c == '\r' || c == '\x0b' || c == '\x0c'

/-- Embedding of Python str.strip (no arguments): drop whitespace at both ends. -/
def pyStrip (s : String) : String :=
  String.mk (((s.data.dropWhile isPySpace).reverse.dropWhile isPySpace).reverse)

/-- Embedding of Python s.startswith(pre). -/
def pyStartswith (s pre : String) : Bool := pre.data.isPrefixOf s.data

/-- One step of Python str.replace(pat, ""): remove every occurrence of pat,
left to right, non-overlapping.  Fuel-driven; pat is always non-empty at the
call sites (the source removes the literal scheme string). -/
def removeAllAux (pat : List Char) : Nat → List Char → List Char
  | _, [] => []
  | 0, cs => cs
  | fuel + 1, c :: cs =>
    if pat.isPrefixOf (c :: cs) then removeAllAux pat fuel ((c :: cs).drop pat.length)
    else c :: removeAllAux pat fuel cs

/-- Embedding of Python s.replace(pat, "") for a non-empty pat. -/
def pyRemoveAll (s pat : String) : String :=
  String.mk (removeAallFix s.data pat.data)
where
  removeAallFix (cs pat : List Char) : List Char := removeAllAux pat cs.length cs

/-- Embedding of Python s.split(sep)[0] for the single-character separator
used by the source (everything before the first question mark). -/
def pySplitQhead (s : String) : String :=
  String.mk (s.data.takeWhile (fun c => c != '?'))

/-! ## Data model (src/search_agent.py)

A raw SerpAPI job record is an untyped mapping; the fields the normalizer
reads are modelled as optional fields (absent key = none). -/

/-- One entry of the raw record's related_links list: a mapping whose
link key may be absent. -/
structure RelatedLink where
  link : Option String
deriving DecidableEq

/-- One entry of the raw record's apply_options list. -/
structure ApplyOption where
  link : Option String
deriving DecidableEq

/-- A raw provider record (the untyped mapping returned by SerpAPI),
restricted to the keys _parse_job reads.  A missing key is none. -/
structure RawJob where
  company_name : Option String
  title : Option String
  location : Option String
  description : Option String
  related_links : Option (List RelatedLink)
  apply_options : Option (List ApplyOption)
  via : Option String
  detected_extensions : Option (List (String × String))
deriving DecidableEq

/-- The raw record with no fields at all. -/
def emptyRawJob : RawJob :=
  { company_name := none, title := none, location := none, description := none,
    related_links := none, apply_options := none, via := none,
    detected_extensions := none }

/-- The canonical job record produced by SearchAgent._parse_job. -/
structure Job where
  company : String
  title : String
  location : String
  description : String
  link : Option String
  apply_link : Option String
  via : Option String
  detected_extensions : List (String × String)
deriving DecidableEq

/-- SearchAgent._extract_link: links[0].get("link") if links else None. -/
def extractLink (j : RawJob) : Option String :=
  match j.related_links.getD [] with
  | [] => none
  | l :: _ => l.link

/-- SearchAgent._extract_apply_link: options[0].get("link") if options else None. -/
def extractApplyLink (j : RawJob) : Option String :=
  match j.apply_options.getD [] with
  | [] => none
  | o :: _ => o.link

/-- SearchAgent._parse_job: defensively normalizes one raw record
(job.get(key, "").strip() on the text fields, optional links, via as-is,
detected_extensions defaulting to the empty mapping). -/
def parseJob (j : RawJob) : Job :=
  { company := pyStrip (j.company_name.getD ""),
    title := pyStrip (j.title.getD ""),
    location := pyStrip (j.location.getD ""),
    description := pyStrip (j.description.getD ""),
    link := extractLink j,
    apply_link := extractApplyLink j,
    via := j.via,
    detected_extensions := j.detected_extensions.getD [] }

/-- The filters sub-mapping of the SearchAgent config (FilterConfig).
A key absent from the config behaves as the empty list / false, so the
structure stores the defaulted values directly. -/
structure Filters where
  company_exclude_keywords : List String
  include_keywords : List String
  remote_only : Bool
  locations : List String
  exclude_seniority_levels : List String
deriving DecidableEq

/-- SearchAgent._is_valid_job, as a conjunction of the five sequential
guard-return checks of the source (a guard that fires returns False;
reaching the end returns True):
1. no company-exclude keyword occurs in the lower-cased company name;
2. include_keywords, when non-empty, must hit title + description;
3. with remote_only, the substring "remote" must occur in location,
   title, or description;
4. locations, when non-empty, must hit the location field
   (applied unconditionally: the source has no remote-only precedence);
5. no excluded seniority level occurs in the title. -/
def isValidJob (f : Filters) (job : Job) : Bool :=
  !(f.company_exclude_keywords.any fun kw => pyIn (pyLower kw) (pyLower job.company)) &&
  (f.include_keywords.isEmpty ||
    f.include_keywords.any fun kw =>
      pyIn (pyLower kw) (pyLower job.title ++ pyLower job.description)) &&
  (!f.remote_only ||
    (pyIn "remote" (pyLower job.location) || pyIn "remote" (pyLower job.title) ||
      pyIn "remote" (pyLower job.description))) &&
  (f.locations.isEmpty ||
    f.locations.any fun loc => pyIn (pyLower loc) (pyLower job.location)) &&
  !(f.exclude_seniority_levels.any fun lv => pyIn (pyLower lv) (pyLower job.title))

/-- SearchAgent._filter_jobs: keep exactly the jobs passing _is_valid_job,
in input order. -/
def filterJobs (f : Filters) (jobs : List Job) : List Job :=
  jobs.filter (isValidJob f)

/-- The deduplication key: (lower-cased title, lower-cased company). -/
def dedupKey (j : Job) : String × String := (pyLower j.title, pyLower j.company)

/-- The seen-set loop of SearchAgent._deduplicate_jobs. -/
def dedupAux (seen : List (String × String)) : List Job → List Job
  | [] => []
  | j :: rest =>
    if dedupKey j ∈ seen then dedupAux seen rest
    else j :: dedupAux (dedupKey j :: seen) rest

/-- SearchAgent._deduplicate_jobs: first-occurrence-wins dedup by
(title.lower(), company.lower()). -/
def deduplicateJobs (jobs : List Job) : List Job := dedupAux [] jobs

/-! ## Contact extractor (src/parser.py)

The email pattern of WebParser is the regular expression
local+ at domain+ dot tld, with local in [a-zA-Z0-9._%+-], domain in
[a-zA-Z0-9.-] and tld = at least two letters.  re.findall is embedded as a
left-to-right scan producing the leftmost non-overlapping greedy matches. -/

/-- Characters admitted in the local part of the email pattern. -/
def isLocalChar (c : Char) : Bool :=
  c.isAlphanum || c == '.' || c == '_' || c == '%' || c == '+' || c == '-'

/-- Characters admitted in the domain part of the email pattern. -/
def isDomChar (c : Char) : Bool := c.isAlphanum || c == '.' || c == '-'

/-- Given the maximal run dom of domain characters after the at sign, find
the greedy split of the backtracking engine: the largest index m with
1 <= m, dom[m] a dot, and at least two letters right after it; returns the
number of characters of dom consumed by the match (m + 1 + letter run). -/
def findDotSplit (dom : List Char) : Option Nat :=
  ((List.range dom.length).reverse.filterMap fun m =>
    if 1 ≤ m && dom.getD m '@' == '.' then
      let r := ((dom.drop (m + 1)).takeWhile Char.isAlpha).length
      if 2 ≤ r then some (m + 1 + r) else none
    else none).head?

/-- Try to match the email pattern at the start of cs; on success return the
matched characters and the remainder of the input after the match. -/
def matchEmailAt (cs : List Char) : Option (List Char × List Char) :=
  let loc := cs.takeWhile isLocalChar
  if loc.isEmpty then none
  else
    match cs.drop loc.length with
    | '@' :: rest2 =>
      let dom := rest2.takeWhile isDomChar
      match findDotSplit dom with
      | none => none
      | some consumed =>
        some (loc ++ '@' :: dom.take consumed, rest2.drop consumed)
    | _ => none

/-- The re.findall scan: at each position try a match; on success emit it
and resume after the match, else advance one character.  Each successful
match consumes at least one character, so input length is enough fuel. -/
def scanEmailsAux : Nat → List Char → List String
  | 0, _ => []
  | _, [] => []
  | fuel + 1, c :: rest =>
    match matchEmailAt (c :: rest) with
    | some (m, rest') => String.mk m :: scanEmailsAux fuel rest'
    | none => scanEmailsAux fuel rest

/-- re.findall(email_regex, text), in match order. -/
def findEmailsText (s : String) : List String :=
  scanEmailsAux s.data.length s.data

/-- A hyperlink of the parsed page: href attribute and visible anchor text. -/
structure Anchor where
  href : String
  text : String
deriving DecidableEq

/-- A fetched page as seen by the extractor: its visible text and its
anchors in document order. -/
structure Page where
  text : String
  links : List Anchor
deriving DecidableEq

/-- Outcome of one requests.get call: a raised transport fault, or a
response with an HTTP status code and a parsed page. -/
inductive FetchResult where
  | fault
  | response (status : Nat) (page : Page)
deriving DecidableEq

/-- The mailto pass of extract_emails_from_url: for every anchor whose href
starts with the mailto scheme, remove the scheme string (str.replace
removes every occurrence) and keep what precedes the first question mark. -/
def mailtoList (links : List Anchor) : List String :=
  links.filterMap fun a =>
    if pyStartswith a.href "mailto:" then
      some (pySplitQhead (pyRemoveAll a.href "mailto:"))
    else none

/-- The contact-link collection of the secondary pass: anchors whose visible
text contains contact, career or about (case-insensitively), resolved
against the page URL by the resolver (urljoin), kept when absolute-http and
not already collected, in document order. -/
def contactLinksOf (resolve : String → String → String) (url : String)
    (links : List Anchor) : List String :=
  links.foldl
    (fun acc a =>
      if pyIn "contact" (pyLower a.text) || pyIn "career" (pyLower a.text) ||
          pyIn "about" (pyLower a.text) then
        let full := resolve url a.href
        if !acc.contains full && pyStartswith full "http" then acc ++ [full]
        else acc
      else acc)
    []

/-- The secondary fetch loop over the first two contact links: a transport
fault on a link is swallowed; a 200 response contributes the text-pattern
matches of the sub-page (the source applies only re.findall there, not the
mailto extraction). -/
def secondaryPass (world : String → FetchResult) (links : List String) :
    List String :=
  links.foldl
    (fun acc link =>
      match world link with
      | .fault => acc
      | .response st sub => if st == 200 then acc ++ findEmailsText sub.text else acc)
    []

/-- WebParser.extract_emails_from_url over an abstract web (world maps a URL
to its fetch outcome) and an abstract URL resolver standing for urljoin.
An empty URL returns no candidates; a transport fault or an HTTP error
status (raise_for_status) returns no candidates; otherwise the primary
candidates are the text-pattern matches plus the mailto links, and when
they are empty the bounded secondary pass runs over at most the first two
contact links.  Python returns list(set(...)); the model keeps occurrence
order, so results are read up to membership. -/
def extractEmailsFromUrl (world : String → FetchResult)
    (resolve : String → String → String) (url : String) : List String :=
  if url = "" then []
  else
    match world url with
    | .fault => []
    | .response status page =>
      if 400 ≤ status then []
      else
        let primary := findEmailsText page.text ++ mailtoList page.links
        if primary.isEmpty then
          secondaryPass world ((contactLinksOf resolve url page.links).take 2)
        else primary

/-! ## Email filter (src/utils.py filter_emails)

validate_email_address defers to the external email_validator library
(syntax-only, deliverability off); the library is outside the repository,
so the validator is a parameter of the embedding.  The company_domain
branch of the source only logs and falls through, so it cannot influence
the result; the parameter is kept to mirror the signature.  Python returns
list(set(valid_emails)) whose order is unspecified; the model dedups
keeping canonical order, results are read up to membership. -/

/-- utils.filter_emails: keep the candidates accepted by the syntactic
validator whose lower-cased text starts with some allowed entry
(each entry carries its own separator), then deduplicate. -/
def filterEmails (validator : String → Bool) (emails : List String)
    (allowed : List String) (company_domain : Option String) : List String :=
  (emails.filter fun e =>
      validator e && allowed.any fun p => pyStartswith (pyLower e) (pyLower p)).dedup

/-! ## Rate-limit check (src/main.py check_rate_limit)

The ledger CSV is modelled by its observable states: the file is absent,
reading or timestamp parsing raises (pandas fault, caught by the except
branch), the frame lacks a timestamp column, or a list of day stamps is
obtained.  Days are abstracted to naturals. -/

/-- The observable state of the sent-log ledger. -/
inductive LedgerState where
  | absent
  | unreadable
  | table (hasTimestamp : Bool) (dates : List Nat)
deriving DecidableEq

/-- main.check_rate_limit: missing file, unreadable file and missing
timestamp column all report limit-not-reached (True); otherwise compare
today's row count against the limit. -/
def checkRateLimit (st : LedgerState) (today : Nat) (limit : Nat) : Bool :=
  match st with
  | .absent => true
  | .unreadable => true
  | .table false _ => true
  | .table true dates => decide (dates.countP (fun d => d == today) < limit)

/-! ## Search orchestrator (src/search_agent.py search_jobs)

The SerpAPI call is modelled per attempt: a raised fault or a response
mapping with an optional error field and an optional jobs_results list.
The observable effects of the loop are recorded as a trace of events
(one per provider attempt, one per backoff sleep); the function itself is
total — a failure never escapes as an exception. -/

/-- The provider response mapping, restricted to the keys the loop reads. -/
structure ProviderResponse where
  error : Option String
  jobs_results : Option (List RawJob)
deriving DecidableEq

/-- One observable event of the retry loop. -/
inductive Event where
  | attempt (k : Nat)
  | sleep (k : Nat)
deriving DecidableEq

/-- Body of one try of search_jobs: a raised fault or a response carrying
an error field is a retryable failure; otherwise the raw results (absent
key = empty list) are parsed, filtered and deduplicated. -/
def attemptResult (f : Filters) (provider : Nat → Except Unit ProviderResponse)
    (k : Nat) : Except Unit (List Job) :=
  match provider k with
  | .error _ => .error ()
  | .ok resp =>
    if resp.error.isSome then .error ()
    else .ok (deduplicateJobs (filterJobs f ((resp.jobs_results.getD []).map parseJob)))

/-- The attempt loop of search_jobs, with k the current attempt number and
remaining the attempts left (retry_attempts - k + 1): success returns the
pipeline output at once; failure with attempts remaining sleeps then
retries; failure on the last attempt returns the empty list. -/
def searchJobsGo (f : Filters) (provider : Nat → Except Unit ProviderResponse) :
    Nat → Nat → List Job × List Event
  | _, 0 => ([], [])
  | k, remaining + 1 =>
    match attemptResult f provider k with
    | .ok jobs => (jobs, [.attempt k])
    | .error _ =>
      match remaining with
      | 0 => ([], [.attempt k])
      | r + 1 =>
        let rest := searchJobsGo f provider (k + 1) (r + 1)
        (rest.1, .attempt k :: .sleep k :: rest.2)

/-- SearchAgent.search_jobs: an empty API key aborts with no results and no
provider attempt; otherwise the retry loop runs attempts 1..retry_attempts. -/
def searchJobs (apiKey : String) (f : Filters)
    (provider : Nat → Except Unit ProviderResponse) (retry_attempts : Nat) :
    List Job × List Event :=
  if apiKey = "" then ([], [])
  else searchJobsGo f provider 1 retry_attempts

/-- The trace produced when every attempt fails: attempts starting at k,
with a sleep after each attempt except the last. -/
def failTrace : Nat → Nat → List Event
  | _, 0 => []
  | k, 1 => [.attempt k]
  | k, r + 2 => .attempt k :: .sleep k :: failTrace (k + 1) (r + 1)

/-- Recognizer for attempt events. -/
def isAttemptEv : Event → Bool
  | .attempt _ => true
  | .sleep _ => false

/-- Recognizer for sleep events. -/
def isSleepEv : Event → Bool
  | .attempt _ => false
  | .sleep _ => true

/-! ## Backoff scheduler (src/search_agent.py _get_backoff_delay)

self.delay_seconds * (2 ** (attempt - 1)) + random.uniform(0, 1.0), with
the jitter draw made an explicit real-valued argument (modelled over the
rationals) constrained to the unit interval of the uniform draw. -/

/-- SearchAgent._get_backoff_delay with the jitter draw explicit. -/
def backoffDelay (base : ℚ) (attempt : Nat) (jitter : ℚ) : ℚ :=
  base * 2 ^ (attempt - 1) + jitter

/-! ## Concrete fixtures used by counterexamples and witnesses. -/

/-- A remote posting: the substring remote occurs in its location. -/
def remoteJob : Job :=
  { company := "Acme", title := "ML Engineer", location := "Remote",
    description := "Work from anywhere", link := some "https://acme.example/j",
    apply_link := none, via := none, detected_extensions := [] }

/-- remote_only set, no allowed locations configured. -/
def cfgRemoteOnly : Filters :=
  { company_exclude_keywords := [], include_keywords := [], remote_only := true,
    locations := [], exclude_seniority_levels := [] }

/-- remote_only set together with a non-empty allowed-locations list whose
single entry does not occur in the location of remoteJob. -/
def cfgRemoteUsa : Filters :=
  { company_exclude_keywords := [], include_keywords := [], remote_only := true,
    locations := ["usa"], exclude_seniority_levels := [] }

/-- A trivially permissive filter configuration. -/
def cfgNone : Filters :=
  { company_exclude_keywords := [], include_keywords := [], remote_only := false,
    locations := [], exclude_seniority_levels := [] }

/-- A concrete syntactic validator instance for witnesses: accept any
candidate containing an at sign. -/
def vDemo : String → Bool := fun e => pyIn "@" e

/-- Main page of the secondary-pass counterexample: no visible emails, one
contact link. -/
def cexMainPage : Page :=
  { text := "", links := [{ href := "/contact", text := "Contact Us" }] }

/-- Secondary page of the counterexample: no visible emails, but a mailto
link that the primary extraction would have harvested. -/
def cexSubPage : Page :=
  { text := "", links := [{ href := "mailto:jobs@foo.io?subject=hi", text := "Email us" }] }

/-- Resolver fixture standing for urljoin on site-relative hrefs. -/
def cexResolve : String → String → String := fun base rel => base ++ rel

/-- The web of the counterexample. -/
def cexWorld : String → FetchResult := fun u =>
  if u = "https://cex.example" then .response 200 cexMainPage
  else if u = "https://cex.example/contact" then .response 200 cexSubPage
  else .fault

/-- Main page of the amended-claim witness: two qualifying links. -/
def wMainPage : Page :=
  { text := "",
    links := [{ href := "/contact", text := "Contact" },
              { href := "/about", text := "About us" }] }

/-- Second secondary page of the witness: carries a visible email. -/
def wSubPage : Page := { text := "write to jobs@foo.io", links := [] }

/-- Resolver fixture of the witness. -/
def wResolve : String → String → String := fun base rel => base ++ rel

/-- The web of the witness: the first contact link faults, the second
responds with the page carrying the email. -/
def wWorld : String → FetchResult := fun u =>
  if u = "https://w.example" then .response 200 wMainPage
  else if u = "https://w.example/about" then .response 200 wSubPage
  else .fault

/-- A provider that always reports an error field. -/
def provAlwaysErr : Nat → Except Unit ProviderResponse :=
  fun _ => .ok { error := some "quota exceeded", jobs_results := none }

/-- First job of the dedup witness pair (shared key with jobB). -/
def jobA : Job :=
  { company := "Acme", title := "SWE Intern", location := "NYC",
    description := "first posting", link := some "https://a.example",
    apply_link := none, via := none, detected_extensions := [] }

/-- Second job of the dedup witness pair: same title and company as jobA
up to case, different data. -/
def jobB : Job :=
  { company := "ACME", title := "swe intern", location := "Boston",
    description := "second posting", link := some "https://b.example",
    apply_link := none, via := none, detected_extensions := [] }

/-- First of the empty-key witness pair: empty title and company but a
link of its own. -/
def jobEmptyA : Job :=
  { company := "", title := "", location := "Berlin",
    description := "posting one", link := some "https://one.example",
    apply_link := none, via := none, detected_extensions := [] }

/-- Second of the empty-key witness pair: differing link, location and
description. -/
def jobEmptyB : Job :=
  { company := "", title := "", location := "Paris",
    description := "posting two", link := some "https://two.example",
    apply_link := none, via := none, detected_extensions := [] }

/-! # Theorems -/

/-- C5: normalizing the raw record with no fields at all yields, without
fault, the job record whose company, title, location and description are
empty, whose primary and apply links are absent, whose source attribution
is absent, and whose extensions bag is empty. -/
theorem parseJob_empty_raw :
    parseJob emptyRawJob =
      { company := "", title := "", location := "", description := "",
        link := none, apply_link := none, via := none, detected_extensions := [] } := by
  rfl

/-- C6: for a positive attempt number and positive base, the backoff delay
with a jitter draw in the unit interval is at least base * 2 ^ (k - 1) and
strictly below base * 2 ^ (k - 1) + 1. -/
theorem backoffDelay_bounds (base : ℚ) (k : Nat) (jitter : ℚ)
    (hk : 1 ≤ k) (hbase : 0 < base) (hj0 : 0 ≤ jitter) (hj1 : jitter < 1) :
    base * 2 ^ (k - 1) ≤ backoffDelay base k jitter ∧
      backoffDelay base k jitter < base * 2 ^ (k - 1) + 1 := by
  unfold backoffDelay
  constructor
  · exact le_add_of_nonneg_right hj0
  · exact add_lt_add_left hj1 _

/-- Witness for C6 at base 2, attempt 1, jitter one half. -/
theorem backoffDelay_bounds_witness :
    (2 : ℚ) * 2 ^ (1 - 1) ≤ backoffDelay 2 1 (1 / 2) ∧
      backoffDelay 2 1 (1 / 2) < 2 * 2 ^ (1 - 1) + 1 :=
  backoffDelay_bounds 2 1 (1 / 2) (le_refl 1) (by norm_num) (by norm_num) (by norm_num)

/-- C8: filtering is pointwise — filtering [a, b] is the concatenation of
filtering [a] and filtering [b], and in general the filter distributes over
list concatenation, since each job's admission depends only on that job and
the configuration. -/
theorem filterJobs_pointwise (f : Filters) (a b : Job) :
    filterJobs f [a, b] = filterJobs f [a] ++ filterJobs f [b] ∧
      ∀ l₁ l₂ : List Job, filterJobs f (l₁ ++ l₂) = filterJobs f l₁ ++ filterJobs f l₂ := by
  constructor
  · simp only [filterJobs]
    by_cases h : isValidJob f a <;> by_cases h' : isValidJob f b <;>
      simp [List.filter, h, h']
  · intro l₁ l₂
    simp [filterJobs, List.filter_append]

/-- C9: the rate-limit check fails open — an absent ledger file, an
unreadable or unparsable ledger, and a ledger lacking the timestamp column
all report the limit as not reached. -/
theorem checkRateLimit_fails_open (today limit : Nat) (dates : List Nat)
    (hpos : 0 < limit) :
    checkRateLimit .absent today limit = true ∧
      checkRateLimit .unreadable today limit = true ∧
      checkRateLimit (.table false dates) today limit = true :=
  ⟨rfl, rfl, rfl⟩

/-- Witness for C9 at day 0, limit 1, an arbitrary row list. -/
theorem checkRateLimit_fails_open_witness :
    checkRateLimit .absent 0 1 = true ∧
      checkRateLimit .unreadable 0 1 = true ∧
      checkRateLimit (.table false [0, 0, 0]) 0 1 = true :=
  checkRateLimit_fails_open 0 1 [0, 0, 0] (by decide)

/-- C1 counterexample: a posting that passes the remote check is
nevertheless rejected once allowed_locations is non-empty — the source
applies the location whitelist even after remote_only passed, so is_valid
does not return the same result for the two configurations. -/
theorem isValidJob_remote_then_locations_cex :
    pyIn "remote" (pyLower remoteJob.location) = true ∧
      isValidJob cfgRemoteOnly remoteJob = true ∧
      isValidJob cfgRemoteUsa remoteJob = false := by
  decide

/-- C1 amended: when remote_only is set and the remote check passes, the
allowed_locations check is still applied — with a non-empty
allowed_locations list none of whose entries occurs in the location field,
is_valid rejects the job. -/
theorem isValidJob_locations_applied_after_remote (f : Filters) (job : Job)
    (hro : f.remote_only = true)
    (hrem : (pyIn "remote" (pyLower job.location) || pyIn "remote" (pyLower job.title) ||
      pyIn "remote" (pyLower job.description)) = true)
    (hne : f.locations ≠ [])
    (hmiss : ∀ loc ∈ f.locations, pyIn (pyLower loc) (pyLower job.location) = false) :
    isValidJob f job = false := by
  have hempty : f.locations.isEmpty = false := by
    cases h : f.locations with
    | nil => exact absurd h hne
    | cons a l => rfl
  have hany : (f.locations.any fun loc => pyIn (pyLower loc) (pyLower job.location)) = false := by
    rw [List.any_eq_false]
    intro loc hloc
    simp [hmiss loc hloc]
  simp [isValidJob, hempty, hany]

/-- Witness for the amended C1 at the concrete remote posting and the
configuration with allowed location usa. -/
theorem isValidJob_locations_applied_after_remote_witness :
    isValidJob cfgRemoteUsa remoteJob = false :=
  isValidJob_locations_applied_after_remote cfgRemoteUsa remoteJob rfl (by decide)
    (by decide) (by decide)

/-! ### Deduplicator lemmas -/

/-- A job emitted by the dedup loop never carries a key already seen. -/
theorem mem_dedupAux_not_seen {seen : List (String × String)} {l : List Job}
    {x : Job} (hx : x ∈ dedupAux seen l) : dedupKey x ∉ seen := by
  induction l generalizing seen with
  | nil => simp [dedupAux] at hx
  | cons j rest ih =>
    by_cases h : dedupKey j ∈ seen
    · rw [dedupAux, if_pos h] at hx
      exact ih hx
    · rw [dedupAux, if_neg h] at hx
      rcases List.mem_cons.mp hx with rfl | hx'
      · exact h
      · intro hc
        exact (ih hx') (List.mem_cons_of_mem _ hc)

/-- The keys of the dedup loop's output are pairwise distinct. -/
theorem dedupAux_keys_nodup (seen : List (String × String)) (l : List Job) :
    ((dedupAux seen l).map dedupKey).Nodup := by
  induction l generalizing seen with
  | nil => simp [dedupAux]
  | cons j rest ih =>
    by_cases h : dedupKey j ∈ seen
    · rw [dedupAux, if_pos h]
      exact ih seen
    · rw [dedupAux, if_neg h]
      refine List.Nodup.cons ?_ (ih (dedupKey j :: seen))
      intro hmem
      rcases List.mem_map.mp hmem with ⟨x, hx, hkx⟩
      exact (mem_dedupAux_not_seen hx) (hkx ▸ List.mem_cons_self _ _)

/-- The dedup loop's output is a sublist of its input: retained records are
unchanged and keep their relative order. -/
theorem dedupAux_sublist (seen : List (String × String)) (l : List Job) :
    (dedupAux seen l).Sublist l := by
  induction l generalizing seen with
  | nil => simp [dedupAux]
  | cons j rest ih =>
    by_cases h : dedupKey j ∈ seen
    · rw [dedupAux, if_pos h]
      exact (ih seen).cons j
    · rw [dedupAux, if_neg h]
      exact (ih (dedupKey j :: seen)).cons₂ j

/-- A list whose keys are pairwise distinct and disjoint from the seen set
passes through the dedup loop unchanged. -/
theorem dedupAux_eq_self {l : List Job} (h : (l.map dedupKey).Nodup)
    {seen : List (String × String)} (h2 : ∀ x ∈ l, dedupKey x ∉ seen) :
    dedupAux seen l = l := by
  induction l generalizing seen with
  | nil => rfl
  | cons j rest ih =>
    have hj : dedupKey j ∉ seen := h2 j (List.mem_cons_self _ _)
    rw [dedupAux, if_neg hj]
    congr 1
    refine ih (List.Nodup.of_cons h) ?_
    intro x hx
    rw [List.mem_cons]
    rintro (hk | hk)
    · have : dedupKey j ∈ rest.map dedupKey := List.mem_map.mpr ⟨x, hx, hk⟩
      exact (List.nodup_cons.mp (by simpa using h)).1 this
    · exact h2 x (List.mem_cons_of_mem _ hx) hk

/-- The first record carrying its key is always retained by the loop. -/
theorem first_mem_dedupAux (pre : List Job) (seen : List (String × String))
    (j : Job) (post : List Job) (hseen : dedupKey j ∉ seen)
    (hpre : ∀ j' ∈ pre, dedupKey j' ≠ dedupKey j) :
    j ∈ dedupAux seen (pre ++ j :: post) := by
  induction pre generalizing seen with
  | nil =>
    rw [List.nil_append, dedupAux, if_neg hseen]
    exact List.mem_cons_self _ _
  | cons a pre ih =>
    rw [List.cons_append]
    by_cases h : dedupKey a ∈ seen
    · rw [dedupAux, if_pos h]
      exact ih seen hseen (fun j' hj' => hpre j' (List.mem_cons_of_mem _ hj'))
    · rw [dedupAux, if_neg h]
      refine List.mem_cons_of_mem _ (ih (dedupKey a :: seen) ?_ ?_)
      · rw [List.mem_cons]
        rintro (hk | hk)
        · exact hpre a (List.mem_cons_self _ _) hk.symm
        · exact hseen hk
      · exact fun j' hj' => hpre j' (List.mem_cons_of_mem _ hj')

/-- C7: deduplication is idempotent, its output is a sublist of its input
(records unchanged, input order preserved), each key occurs at most once in
the output, and for any record preceded by no record of the same key the
record itself is retained. -/
theorem deduplicateJobs_spec (l : List Job) :
    deduplicateJobs (deduplicateJobs l) = deduplicateJobs l ∧
      (deduplicateJobs l).Sublist l ∧
      ((deduplicateJobs l).map dedupKey).Nodup ∧
      ∀ pre j post, l = pre ++ j :: post →
        (∀ j' ∈ pre, dedupKey j' ≠ dedupKey j) → j ∈ deduplicateJobs l := by
  refine ⟨?_, dedupAux_sublist [] l, dedupAux_keys_nodup [] l, ?_⟩
  · exact dedupAux_eq_self (dedupAux_keys_nodup [] l) (by simp)
  · rintro pre j post rfl hpre
    exact first_mem_dedupAux pre [] j post (by simp) hpre

/-- Witness for C7 at a pair of jobs sharing a key up to case. -/
theorem deduplicateJobs_spec_witness :
    deduplicateJobs (deduplicateJobs [jobA, jobB]) = deduplicateJobs [jobA, jobB] ∧
      jobA ∈ deduplicateJobs [jobA, jobB] :=
  ⟨(deduplicateJobs_spec [jobA, jobB]).1,
    (deduplicateJobs_spec [jobA, jobB]).2.2.2 [] jobA [jobB] rfl (by simp)⟩

/-! ### Empty-key collapse lemmas -/

/-- Lower-casing maps only the empty string to the empty string. -/
theorem pyLower_eq_empty {s : String} (h : pyLower s = "") : s = "" := by
  have hdata : s.data.map Char.toLower = [] := congrArg String.data h
  have : s.data = [] := List.map_eq_nil_iff.mp hdata
  cases s
  simp_all

/-- A record with empty title and company has the empty dedup key. -/
theorem dedupKey_empty_of {j : Job} (h1 : j.title = "") (h2 : j.company = "") :
    dedupKey j = ("", "") := by
  rw [dedupKey, h1, h2]
  rfl

/-- Conversely, the empty dedup key forces empty title and company. -/
theorem empty_of_dedupKey_empty {j : Job} (h : dedupKey j = ("", "")) :
    j.title = "" ∧ j.company = "" := by
  rw [dedupKey, Prod.mk.injEq] at h
  exact ⟨pyLower_eq_empty h.1, pyLower_eq_empty h.2⟩

/-- A duplicate-free list all of whose entries equal one value has at most
one entry. -/
theorem length_le_one_of_all_eq {α : Type} {L : List α} {c : α}
    (hall : ∀ x ∈ L, x = c) (hnd : L.Nodup) : L.length ≤ 1 := by
  match L with
  | [] => simp
  | [a] => simp
  | a :: b :: t =>
    exfalso
    have ha : a = c := hall a (List.mem_cons_self _ _)
    have hb : b = c := hall b (List.mem_cons_of_mem _ (List.mem_cons_self _ _))
    have : a ∉ b :: t := (List.nodup_cons.mp hnd).1
    exact this (ha ▸ hb ▸ List.mem_cons_self _ _)

/-- C10: records with empty title and empty company all share the dedup key
(two empty strings); deduplication therefore keeps at most one such record,
and the first record preceded by no empty-keyed record is the one retained,
whatever its links, location or description. -/
theorem deduplicateJobs_empty_key_collapse (l : List Job) :
    ((deduplicateJobs l).countP fun j => j.title == "" && j.company == "") ≤ 1 ∧
      (∀ j j' : Job, j.title = "" → j.company = "" → j'.title = "" → j'.company = "" →
        dedupKey j = dedupKey j' ∧ dedupKey j = ("", "")) ∧
      ∀ pre j post, l = pre ++ j :: post → j.title = "" → j.company = "" →
        (∀ j' ∈ pre, ¬(j'.title = "" ∧ j'.company = "")) →
        j ∈ deduplicateJobs l := by
  refine ⟨?_, ?_, ?_⟩
  · rw [List.countP_eq_length_filter]
    set F := (deduplicateJobs l).filter fun j => j.title == "" && j.company == "" with hF
    have hsub : (F.map dedupKey).Sublist ((deduplicateJobs l).map dedupKey) :=
      (List.filter_sublist _).map dedupKey
    have hnd : (F.map dedupKey).Nodup := hsub.nodup (dedupAux_keys_nodup [] l)
    have hall : ∀ x ∈ F.map dedupKey, x = (("" : String), ("" : String)) := by
      intro x hx
      rcases List.mem_map.mp hx with ⟨j, hj, rfl⟩
      have hmem := List.mem_filter.mp (hF ▸ hj)
      have h1 : j.title = "" := by
        have := hmem.2
        simp only [Bool.and_eq_true, beq_iff_eq] at this
        exact this.1
      have h2 : j.company = "" := by
        have := hmem.2
        simp only [Bool.and_eq_true, beq_iff_eq] at this
        exact this.2
      exact dedupKey_empty_of h1 h2
    have := length_le_one_of_all_eq hall hnd
    simpa using this
  · intro j j' h1 h2 h1' h2'
    rw [dedupKey_empty_of h1 h2, dedupKey_empty_of h1' h2']
    exact ⟨rfl, rfl⟩
  · rintro pre j post rfl h1 h2 hpre
    refine first_mem_dedupAux pre [] j post (by simp) ?_
    intro j' hj' hk
    have hkey : dedupKey j' = ("", "") := hk.trans (dedupKey_empty_of h1 h2)
    exact hpre j' hj' (empty_of_dedupKey_empty hkey)

/-- Witness for C10 at two records with empty title and company but
different links, locations and descriptions. -/
theorem deduplicateJobs_empty_key_collapse_witness :
    jobEmptyA ∈ deduplicateJobs [jobEmptyA, jobEmptyB] ∧
      ((deduplicateJobs [jobEmptyA, jobEmptyB]).countP
        fun j => j.title == "" && j.company == "") ≤ 1 :=
  ⟨(deduplicateJobs_empty_key_collapse [jobEmptyA, jobEmptyB]).2.2 [] jobEmptyA [jobEmptyB]
      rfl rfl rfl (by simp),
    (deduplicateJobs_empty_key_collapse [jobEmptyA, jobEmptyB]).1⟩

/-- C3: a candidate is admitted iff it passes the syntactic validator and
its lower-cased text starts with some allowed entry (each entry carrying
its own separator); the company_domain argument never changes the admitted
set; the returned collection is duplicate-free; and on the concrete
prefixes careers-at / hr-at the three-candidate example admits exactly the
careers and HR addresses. -/
theorem filterEmails_spec (v : String → Bool) (emails allowed : List String)
    (d d' : Option String) :
    (∀ e, e ∈ filterEmails v emails allowed d ↔
      e ∈ emails ∧ v e = true ∧
        ∃ p ∈ allowed, pyStartswith (pyLower e) (pyLower p) = true) ∧
      filterEmails v emails allowed d = filterEmails v emails allowed d' ∧
      (filterEmails v emails allowed d).Nodup ∧
      (v "careers@acme.com" = true → v "HR@Acme.com" = true →
        filterEmails v ["careers@acme.com", "bob@acme.com", "HR@Acme.com"]
          ["careers@", "hr@"] d = ["careers@acme.com", "HR@Acme.com"]) := by
  refine ⟨?_, rfl, List.nodup_dedup _, ?_⟩
  · intro e
    simp only [filterEmails, List.mem_dedup, List.mem_filter, Bool.and_eq_true,
      List.any_eq_true]
  · intro h1 h2
    have hbob : (["careers@", "hr@"].any fun p =>
        pyStartswith (pyLower "bob@acme.com") (pyLower p)) = false := by decide
    simp only [filterEmails, List.filter_cons, List.filter_nil, h1, h2, hbob,
      Bool.and_false, Bool.true_and]
    decide

/-- Witness for C3 at a concrete validator accepting any candidate with an
at sign. -/
theorem filterEmails_spec_witness :
    filterEmails vDemo ["careers@acme.com", "bob@acme.com", "HR@Acme.com"]
        ["careers@", "hr@"] none = ["careers@acme.com", "HR@Acme.com"] ∧
      (filterEmails vDemo ["careers@acme.com", "bob@acme.com", "HR@Acme.com"]
        ["careers@", "hr@"] none).Nodup :=
  ⟨(filterEmails_spec vDemo ["careers@acme.com", "bob@acme.com", "HR@Acme.com"]
      ["careers@", "hr@"] none none).2.2.2 (by decide) (by decide),
    (filterEmails_spec vDemo ["careers@acme.com", "bob@acme.com", "HR@Acme.com"]
      ["careers@", "hr@"] none none).2.2.1⟩

/-! ### Retry-loop lemmas -/

/-- When every attempt in the window fails, the loop returns no jobs and
produces the all-fail trace. -/
theorem searchJobsGo_all_fail (f : Filters)
    (provider : Nat → Except Unit ProviderResponse) :
    ∀ r k, (∀ i, k ≤ i → i < k + r → attemptResult f provider i = .error ()) →
      searchJobsGo f provider k r = ([], failTrace k r) := by
  intro r
  induction r with
  | zero => intro k _; rfl
  | succ r ih =>
    intro k h
    have hk : attemptResult f provider k = .error () :=
      h k (le_refl k) (by omega)
    match r with
    | 0 =>
      rw [searchJobsGo, hk]
      rfl
    | r' + 1 =>
      have hrest : searchJobsGo f provider (k + 1) (r' + 1) =
          ([], failTrace (k + 1) (r' + 1)) := by
        refine ih (k + 1) ?_
        intro i hi hi'
        exact h i (by omega) (by omega)
      rw [searchJobsGo, hk]
      simp only [hrest]
      rfl

/-- The all-fail trace holds one attempt event per attempt and one sleep
event between consecutive attempts (none after the last). -/
theorem failTrace_counts :
    ∀ r k, (failTrace k r).countP isAttemptEv = r ∧
      (failTrace k r).countP isSleepEv = r - 1 := by
  intro r
  induction r with
  | zero => intro k; exact ⟨rfl, rfl⟩
  | succ r ih =>
    intro k
    match r with
    | 0 => exact ⟨rfl, rfl⟩
    | r' + 1 =>
      have h := ih (k + 1)
      rw [failTrace]
      constructor
      · simp [List.countP_cons, isAttemptEv, isSleepEv, h.1]
      · simp [List.countP_cons, isAttemptEv, isSleepEv, h.2]

/-- C4: when every one of the configured attempts fails (the provider call
faults or its response carries an error field), search_jobs returns the
empty job list as a value — the embedding is a total function, no
exception escapes — after exactly retry_attempts provider attempts, with a
backoff sleep between consecutive attempts and none after the last. -/
theorem searchJobs_all_attempts_fail (apiKey : String) (f : Filters)
    (provider : Nat → Except Unit ProviderResponse) (N : Nat)
    (hkey : apiKey ≠ "")
    (hfail : ∀ k, 1 ≤ k → k ≤ N →
      provider k = .error () ∨
        ∃ resp, provider k = .ok resp ∧ resp.error.isSome = true) :
    searchJobs apiKey f provider N = ([], failTrace 1 N) ∧
      (searchJobs apiKey f provider N).2.countP isAttemptEv = N ∧
      (searchJobs apiKey f provider N).2.countP isSleepEv = N - 1 := by
  have hatt : ∀ i, 1 ≤ i → i < 1 + N → attemptResult f provider i = .error () := by
    intro i h1 h2
    rcases hfail i h1 (by omega) with herr | ⟨resp, hok, hsome⟩
    · rw [attemptResult, herr]
    · rw [attemptResult, hok]
      simp [hsome]
  have hmain : searchJobs apiKey f provider N = ([], failTrace 1 N) := by
    rw [searchJobs, if_neg hkey]
    exact searchJobsGo_all_fail f provider N 1 hatt
  refine ⟨hmain, ?_, ?_⟩
  · rw [hmain]
    exact (failTrace_counts N 1).1
  · rw [hmain]
    exact (failTrace_counts N 1).2

/-- Witness for C4 at three attempts against a provider whose response
always carries an error field. -/
theorem searchJobs_all_attempts_fail_witness :
    searchJobs "K" cfgNone provAlwaysErr 3 = ([], failTrace 1 3) ∧
      (searchJobs "K" cfgNone provAlwaysErr 3).2.countP isAttemptEv = 3 ∧
      (searchJobs "K" cfgNone provAlwaysErr 3).2.countP isSleepEv = 3 - 1 :=
  searchJobs_all_attempts_fail "K" cfgNone provAlwaysErr 3 (by decide)
    (fun k _ _ => Or.inr ⟨{ error := some "quota exceeded", jobs_results := none },
      rfl, rfl⟩)

/-- C2 counterexample: the main page has no emails and one qualifying
contact link; the visited secondary page has no visible emails but a
mailto link.  The secondary pass applies only the text pattern match — not
the mailto extraction — so the extractor returns nothing, although the
mailto extraction on that very page would have yielded the address. -/
theorem extractEmails_secondary_ignores_mailto_cex :
    extractEmailsFromUrl cexWorld cexResolve "https://cex.example" = [] ∧
      mailtoList cexSubPage.links = ["jobs@foo.io"] ∧
      (contactLinksOf cexResolve "https://cex.example" cexMainPage.links).take 2 =
        ["https://cex.example/contact"] ∧
      cexWorld "https://cex.example/contact" = .response 200 cexSubPage := by
  decide

/-- C2 amended: when the primary extraction yields no emails, the
secondary pass visits at most the first two qualifying contact, career or
about links in document order and applies only the visible-text pattern
match to each visited secondary page (not the mailto-link extraction); a
fault while fetching one secondary link is swallowed and does not prevent
visiting the other.  With the first link faulting and the second
responding, the result is exactly the text-pattern matches of the second
page, whatever further qualifying links exist. -/
theorem extractEmails_secondary_text_only (world : String → FetchResult)
    (resolve : String → String → String) (url : String) (page sub : Page)
    (l1 l2 : String) (rest : List String)
    (hurl : url ≠ "")
    (hfetch : world url = .response 200 page)
    (htext : findEmailsText page.text = [])
    (hmailto : mailtoList page.links = [])
    (hlinks : contactLinksOf resolve url page.links = l1 :: l2 :: rest)
    (hl1 : world l1 = .fault)
    (hl2 : world l2 = .response 200 sub) :
    extractEmailsFromUrl world resolve url = findEmailsText sub.text := by
  rw [extractEmailsFromUrl, if_neg hurl, hfetch]
  simp only [htext, hmailto, hlinks]
  norm_num [secondaryPass, hl1, hl2]

/-- Witness for the amended C2: the first qualifying link faults, the
second responds with a page carrying a visible email; the extractor
returns exactly that email. -/
theorem extractEmails_secondary_text_only_witness :
    extractEmailsFromUrl wWorld wResolve "https://w.example" = ["jobs@foo.io"] := by
  rw [extractEmails_secondary_text_only wWorld wResolve "https://w.example"
    wMainPage wSubPage "https://w.example/contact" "https://w.example/about" []
    (by decide) (by decide) (by decide) (by decide) (by decide) (by decide) (by decide)]
  decide

end InternAgent
